import Mathlib

/-!
# Thali_CordovaPlugin — verification of the notification / round protocol core

A shallow embedding of the algorithmic core of the repository:

* the round-based connection validation protocol of
  `test/www/jxcore/bv_tests/testThaliMobileNative.js`
  (`validateRequest`, `validateServerResponse`, `QuitSignal`, `serverRound`);
* the notification server of
  `thali/NextGeneration/notification/thaliNotificationServer.js`
  (the enqueued `start` operation and the beacon GET handler);
* the `PeerIdentifier` value type of
  `lib/ios/ThaliCore/ThaliCore/Core/PeerIdentifier.swift`.

JavaScript `Buffer`s are embedded as `List Nat`, strings as `String`,
object identity (where it matters, in `QuitSignal.removeTimeout`) as a sum
type separating raw timer handles from freshly allocated records.  Promise
settlement is embedded as the temporally ordered list of `resolve`/`reject`
attempts made by the executor; the promise's outcome is the first attempt,
because a JS promise ignores every settlement after the first.
-/

namespace Thali

/-! ## Round validation protocol (`testThaliMobileNative.js`) -/

/-- The five protocol outcome codes (`protocolResult` in
`testThaliMobileNative.js`). -/
inductive ProtocolResult where
  | WRONG_GEN
  | WRONG_TEST
  | SUCCESS
  | WRONG_ME
  | WRONG_SYNTAX
  deriving DecidableEq, Repr

/-- The one-byte wire code of each outcome (`protocolResult`'s string
values `'0'` … `'4'`). -/
def ProtocolResult.code : ProtocolResult → String
  | WRONG_GEN => "0"
  | WRONG_TEST => "1"
  | SUCCESS => "2"
  | WRONG_ME => "3"
  | WRONG_SYNTAX => "4"

/-- A parsed wire message, as produced by `parseMessage`: the fixed-width
uuid field, the one-byte code field, and the bulk payload bytes. -/
structure ParsedMessage where
  uuid : String
  code : String
  bulkData : List Nat
  deriving DecidableEq, Repr

/-- The ambient test context: the shared participant uuid list
(`t.participants`, projected to uuids), the local device's uuid
(`tape.uuid`) and the canonical bulk payload (`bulkMessage`, 100000 bytes
of value 1 in the source; kept abstract here). -/
structure TestCtx where
  participants : List String
  localUuid : String
  bulkMessage : List Nat
  deriving DecidableEq, Repr

/-- `peerInTestList(t, uuid)`: linear scan of `t.participants` comparing
each participant's uuid. -/
def peerInTestList (t : TestCtx) (uuid : String) : Bool :=
  t.participants.any (fun p => p = uuid)

/-- `validateRequest(t, roundNumber, parsedMessage)`: the server-side
classification of an incoming message.  `Buffer.compare(a, b) !== 0` is
byte-for-byte inequality of the two buffers. -/
def validateRequest (t : TestCtx) (roundNumber : Nat) (m : ParsedMessage) :
    ProtocolResult :=
  if ¬ peerInTestList t m.uuid then ProtocolResult.WRONG_TEST
  else if m.bulkData ≠ t.bulkMessage then ProtocolResult.WRONG_SYNTAX
  else if m.uuid = t.localUuid then ProtocolResult.WRONG_ME
  else if m.code ≠ toString roundNumber then ProtocolResult.WRONG_GEN
  else ProtocolResult.SUCCESS

/-- The client-side classification values (`validateResponse` in the
source: `FATAL`, `NON_FATAL`, `OK`). -/
inductive ValidateResponse where
  | FATAL
  | NON_FATAL
  | OK
  deriving DecidableEq, Repr

/-- `validateServerResponse(t, serverResponse)`: the client-side
classification of a server's reply, switching on the one-byte code. -/
def validateServerResponse (t : TestCtx) (r : ParsedMessage) :
    ValidateResponse :=
  if ¬ peerInTestList t r.uuid then ValidateResponse.NON_FATAL
  else if t.bulkMessage ≠ r.bulkData then ValidateResponse.FATAL
  else if r.code = ProtocolResult.WRONG_ME.code ∨
          r.code = ProtocolResult.WRONG_GEN.code then ValidateResponse.NON_FATAL
  else if r.code = ProtocolResult.WRONG_TEST.code ∨
          r.code = ProtocolResult.WRONG_SYNTAX.code then ValidateResponse.FATAL
  else if r.code = ProtocolResult.SUCCESS.code then ValidateResponse.OK
  else ValidateResponse.FATAL

/-- What `clientSuccessConnect` does with a classified response: reject
with a non-fatal error, reject with a fatal error, or resolve after
recording the peer. -/
inductive ClientAction where
  | rejectNonFatal
  | rejectFatal
  | resolveOk
  deriving DecidableEq, Repr

/-- The response-handling step of `clientSuccessConnect`: on `OK` the
responder's uuid is recorded in `peersWeSucceededWith` (a JS object used
as a set: assignment is idempotent, embedded as `List.insert`) and the
promise resolves; on `NON_FATAL` / `FATAL` the connection is destroyed and
the promise rejects with `error.fatal` false / true. -/
def clientHandleResponse (t : TestCtx) (succeeded : List String)
    (r : ParsedMessage) : List String × ClientAction :=
  match validateServerResponse t r with
  | ValidateResponse.NON_FATAL => (succeeded, ClientAction.rejectNonFatal)
  | ValidateResponse.OK => (succeeded.insert r.uuid, ClientAction.resolveOk)
  | ValidateResponse.FATAL => (succeeded, ClientAction.rejectFatal)

/-! ### Theorems for C3 and C4 -/

/-- **C3.** Server-side validation returns exactly one of the five
outcomes, decided in this order: `WRONG_TEST` if the sender's uuid is not
in the participant set; else `WRONG_SYNTAX` if the bulk payload is not
byte-for-byte the canonical payload; else `WRONG_ME` if the uuid is the
server's own; else `WRONG_GEN` if the code differs from the round number's
string form; else `SUCCESS`. -/
theorem validateRequest_decision_order (t : TestCtx) (n : Nat)
    (m : ParsedMessage) :
    (validateRequest t n m = ProtocolResult.WRONG_TEST ↔
      peerInTestList t m.uuid = false) ∧
    (validateRequest t n m = ProtocolResult.WRONG_SYNTAX ↔
      peerInTestList t m.uuid = true ∧ m.bulkData ≠ t.bulkMessage) ∧
    (validateRequest t n m = ProtocolResult.WRONG_ME ↔
      peerInTestList t m.uuid = true ∧ m.bulkData = t.bulkMessage ∧
      m.uuid = t.localUuid) ∧
    (validateRequest t n m = ProtocolResult.WRONG_GEN ↔
      peerInTestList t m.uuid = true ∧ m.bulkData = t.bulkMessage ∧
      m.uuid ≠ t.localUuid ∧ m.code ≠ toString n) ∧
    (validateRequest t n m = ProtocolResult.SUCCESS ↔
      peerInTestList t m.uuid = true ∧ m.bulkData = t.bulkMessage ∧
      m.uuid ≠ t.localUuid ∧ m.code = toString n) := by
  unfold validateRequest
  split_ifs with h1 h2 h3 h4 <;> simp_all

/-- **C4.** The client classifies a server response as: non-fatal if the
responder's uuid is not a recognized participant; else fatal if the bulk
payload differs from the canonical payload; else non-fatal for codes
`WRONG_ME`/`WRONG_GEN`, fatal for `WRONG_TEST`/`WRONG_SYNTAX`, success for
`SUCCESS` (in which case the peer is recorded in the success set), and
fatal for any other code. -/
theorem validateServerResponse_decision (t : TestCtx) (r : ParsedMessage)
    (succeeded : List String) :
    (peerInTestList t r.uuid = false →
      validateServerResponse t r = ValidateResponse.NON_FATAL) ∧
    (peerInTestList t r.uuid = true → t.bulkMessage ≠ r.bulkData →
      validateServerResponse t r = ValidateResponse.FATAL) ∧
    (peerInTestList t r.uuid = true → t.bulkMessage = r.bulkData →
      ((r.code = "3" ∨ r.code = "0") →
        validateServerResponse t r = ValidateResponse.NON_FATAL) ∧
      ((r.code = "1" ∨ r.code = "4") →
        validateServerResponse t r = ValidateResponse.FATAL) ∧
      (r.code = "2" →
        validateServerResponse t r = ValidateResponse.OK) ∧
      (r.code ≠ "0" → r.code ≠ "1" → r.code ≠ "2" → r.code ≠ "3" →
        r.code ≠ "4" →
        validateServerResponse t r = ValidateResponse.FATAL)) ∧
    (validateServerResponse t r = ValidateResponse.OK →
      clientHandleResponse t succeeded r =
        (succeeded.insert r.uuid, ClientAction.resolveOk)) := by
  refine ⟨?_, ?_, ?_, ?_⟩
  · intro h
    simp [validateServerResponse, h]
  · intro h hb
    simp [validateServerResponse, h, hb]
  · intro h hb
    refine ⟨?_, ?_, ?_, ?_⟩
    · intro hc
      rcases hc with hc | hc <;>
        simp [validateServerResponse, ProtocolResult.code, h, hb, hc]
    · intro hc
      rcases hc with hc | hc <;>
        simp [validateServerResponse, ProtocolResult.code, h, hb, hc]
    · intro hc
      simp [validateServerResponse, ProtocolResult.code, h, hb, hc]
    · intro h0 h1 h2 h3 h4
      simp [validateServerResponse, ProtocolResult.code, h, hb, h0, h1, h2,
        h3, h4]
  · intro h
    simp [clientHandleResponse, h]

/-- Witness for C4 at a concrete context and response. -/
theorem validateServerResponse_decision_witness :
    validateServerResponse ⟨["a", "b"], "a", [1, 1]⟩ ⟨"b", "2", [1, 1]⟩ =
      ValidateResponse.OK ∧
    clientHandleResponse ⟨["a", "b"], "a", [1, 1]⟩ [] ⟨"b", "2", [1, 1]⟩ =
      (["b"], ClientAction.resolveOk) := by
  have h := validateServerResponse_decision ⟨["a", "b"], "a", [1, 1]⟩
    ⟨"b", "2", [1, 1]⟩ []
  refine ⟨by decide, ?_⟩
  have := h.2.2.2 (by decide)
  simpa using this

/-! ## QuitSignal (`testThaliMobileNative.js`) -/

/-- One entry of `this.timeOuts`: the object literal
`{ timeOut: timeOut, successCb: successCb }` pushed by `addTimeout`.
Timer handles and callback functions are embedded as opaque numeric
identities. -/
structure TimeoutEntry where
  timeOut : Nat
  successCb : Nat
  deriving DecidableEq, Repr

/-- A JS value passed to `removeTimeout` and compared with `===` against
the stored entries.  Strict equality between a raw timer handle and the
freshly allocated entry record is reference equality between two distinct
objects, hence always false; constructor discrimination embeds that. -/
inductive QSVal where
  | timerHandle (h : Nat)
  | entryRecord (e : TimeoutEntry)
  deriving DecidableEq, Repr

/-- The `QuitSignal` state: the `raised` flag, the `timeOuts` array and
the `cancelCalls` array (callbacks as opaque numeric identities). -/
structure QuitSignal where
  raised : Bool
  timeOuts : List TimeoutEntry
  cancelCalls : List Nat
  deriving DecidableEq, Repr

/-- `new QuitSignal()`. -/
def QuitSignal.new : QuitSignal := ⟨false, [], []⟩

/-- The observable side effects of raising a signal: `clearTimeout` on a
timer handle, a timer's completion callback invoked as
`successCb(null, null)` (the neutral result), and a cancellation callback
invoked. -/
inductive QSEvent where
  | clearTimer (h : Nat)
  | successCbWithNull (cb : Nat)
  | cancelCb (cb : Nat)
  deriving DecidableEq, Repr

/-- `QuitSignal.prototype.addCancelCall`: asserts the signal is not yet
raised, then pushes the callback.  The failed assertion is embedded as
`Except.error`, leaving the state unchanged. -/
def QuitSignal.addCancelCall (s : QuitSignal) (c : Nat) :
    Except String QuitSignal :=
  if s.raised then Except.error "No calling addCancelCall after signal is raised"
  else Except.ok { s with cancelCalls := s.cancelCalls ++ [c] }

/-- `QuitSignal.prototype.addTimeout`: asserts the signal is not yet
raised, then pushes `{ timeOut, successCb }`. -/
def QuitSignal.addTimeout (s : QuitSignal) (timeOut successCb : Nat) :
    Except String QuitSignal :=
  if s.raised then Except.error "No calling addTimeout after signal is raised"
  else Except.ok { s with timeOuts := s.timeOuts ++ [⟨timeOut, successCb⟩] }

/-- `QuitSignal.prototype.removeTimeout`: asserts the signal is not yet
raised, then deletes every stored entry that is `===` to the argument.
(`delete` leaves a hole that `forEach` skips, so deletion and removal
coincide observably.) -/
def QuitSignal.removeTimeout (s : QuitSignal) (v : QSVal) :
    Except String QuitSignal :=
  if s.raised then Except.error "No calling removeTimeout after signal is raised"
  else Except.ok { s with
    timeOuts := s.timeOuts.filter (fun e => QSVal.entryRecord e ≠ v) }

/-- `QuitSignal.prototype.raiseSignal`: an early return when already
raised; otherwise sets `raised`, then for every stored timeout entry calls
`clearTimeout(entry.timeOut)` and `entry.successCb(null, null)`, then
invokes every cancellation callback.  Returns the new state and the
emitted events in order. -/
def QuitSignal.raiseSignal (s : QuitSignal) : QuitSignal × List QSEvent :=
  if s.raised then (s, [])
  else
    ({ s with raised := true },
      (s.timeOuts.flatMap fun e =>
        [QSEvent.clearTimer e.timeOut, QSEvent.successCbWithNull e.successCb]) ++
      s.cancelCalls.map QSEvent.cancelCb)

/-- `raiseSignal` called `n` times in a row, accumulating the emitted
events. -/
def QuitSignal.raiseMany (s : QuitSignal) : Nat → QuitSignal × List QSEvent
  | 0 => (s, [])
  | n + 1 =>
    let r := s.raiseSignal
    let rest := r.1.raiseMany n
    (rest.1, r.2 ++ rest.2)

/-- Once a signal is raised, further `raiseSignal` calls neither change the
state nor emit events. -/
theorem QuitSignal.raiseMany_of_raised (s : QuitSignal) (hr : s.raised = true) :
    ∀ n, s.raiseMany n = (s, []) := by
  intro n
  induction n with
  | zero => rfl
  | succ m ih =>
    simp [QuitSignal.raiseMany, QuitSignal.raiseSignal, hr, ih]

/-- Counting `clearTimer` events in the timeout part of a raise trace. -/
theorem count_clearTimer_raise_trace (l : List TimeoutEntry) (h : Nat) :
    ((l.flatMap fun e =>
        [QSEvent.clearTimer e.timeOut, QSEvent.successCbWithNull e.successCb]).count
      (QSEvent.clearTimer h)) = l.countP (fun e => e.timeOut = h) := by
  induction l with
  | nil => rfl
  | cons a l ih =>
    simp only [List.flatMap_cons, List.count_append, List.countP_cons, ih,
      List.count_cons, List.count_nil]
    by_cases hah : a.timeOut = h <;> simp [hah, Nat.add_comm]

/-- Counting completion-callback events in the timeout part of a raise
trace. -/
theorem count_successCb_raise_trace (l : List TimeoutEntry) (cb : Nat) :
    ((l.flatMap fun e =>
        [QSEvent.clearTimer e.timeOut, QSEvent.successCbWithNull e.successCb]).count
      (QSEvent.successCbWithNull cb)) = l.countP (fun e => e.successCb = cb) := by
  induction l with
  | nil => rfl
  | cons a l ih =>
    simp only [List.flatMap_cons, List.count_append, List.countP_cons, ih,
      List.count_cons, List.count_nil]
    by_cases hah : a.successCb = cb <;> simp [hah, Nat.add_comm]

/-- Counting cancellation-callback events in a raise trace. -/
theorem count_cancelCb_raise_trace (l : List Nat) (cb : Nat) :
    ((l.map QSEvent.cancelCb).count (QSEvent.cancelCb cb)) = l.count cb := by
  induction l with
  | nil => rfl
  | cons a l ih =>
    simp only [List.map_cons, List.count_cons, ih]
    by_cases hah : a = cb <;> simp [hah]

/-- No `clearTimer` or `successCb` event hides in the cancellation part,
and no `cancelCb` event hides in the timeout part, of a raise trace. -/
theorem raise_trace_parts_disjoint (l : List TimeoutEntry) (c : List Nat)
    (h cb cb' : Nat) :
    ((c.map QSEvent.cancelCb).count (QSEvent.clearTimer h)) = 0 ∧
    ((c.map QSEvent.cancelCb).count (QSEvent.successCbWithNull cb)) = 0 ∧
    ((l.flatMap fun e =>
        [QSEvent.clearTimer e.timeOut, QSEvent.successCbWithNull e.successCb]).count
      (QSEvent.cancelCb cb')) = 0 := by
  refine ⟨?_, ?_, ?_⟩
  · exact List.count_eq_zero.mpr (by simp)
  · exact List.count_eq_zero.mpr (by simp)
  · exact List.count_eq_zero.mpr (by simp)

/-- **C5.** Raising a quit signal any positive number of times has the
observable effect of raising it once: the resulting state and the emitted
event trace equal those of a single `raiseSignal`; every timer registered
before the first raise is cleared and its completion callback invoked with
the neutral `(null, null)` result exactly once (once per registration);
every registered cancellation callback is invoked exactly once per
registration; and `raised` is true afterwards (and stays true, the state
being a fixed point of further raises). -/
theorem quitSignal_raise_idempotent (s : QuitSignal) (n : Nat)
    (hr : s.raised = false) (hn : 1 ≤ n) :
    s.raiseMany n = s.raiseSignal ∧
    (s.raiseMany n).1.raised = true ∧
    (∀ h, (s.raiseMany n).2.count (QSEvent.clearTimer h) =
      s.timeOuts.countP (fun e => e.timeOut = h)) ∧
    (∀ cb, (s.raiseMany n).2.count (QSEvent.successCbWithNull cb) =
      s.timeOuts.countP (fun e => e.successCb = cb)) ∧
    (∀ cb, (s.raiseMany n).2.count (QSEvent.cancelCb cb) =
      s.cancelCalls.count cb) := by
  obtain ⟨m, rfl⟩ : ∃ m, n = m + 1 := ⟨n - 1, (Nat.succ_pred_eq_of_pos hn).symm⟩
  have hsig : s.raiseSignal =
      ({ s with raised := true },
        (s.timeOuts.flatMap fun e =>
          [QSEvent.clearTimer e.timeOut,
           QSEvent.successCbWithNull e.successCb]) ++
        s.cancelCalls.map QSEvent.cancelCb) := by
    simp [QuitSignal.raiseSignal, hr]
  have hmain : s.raiseMany (m + 1) = s.raiseSignal := by
    simp only [QuitSignal.raiseMany]
    rw [hsig]
    simp only [QuitSignal.raiseMany_of_raised { s with raised := true } rfl m]
    simp
  refine ⟨hmain, ?_, ?_, ?_, ?_⟩
  · rw [hmain, hsig]
  · intro h
    rw [hmain, hsig]
    simp only [List.count_append, count_clearTimer_raise_trace,
      (raise_trace_parts_disjoint s.timeOuts s.cancelCalls h 0 0).1,
      Nat.add_zero]
  · intro cb
    rw [hmain, hsig]
    simp only [List.count_append, count_successCb_raise_trace,
      (raise_trace_parts_disjoint s.timeOuts s.cancelCalls 0 cb 0).2.1,
      Nat.add_zero]
  · intro cb
    rw [hmain, hsig]
    simp only [List.count_append, count_cancelCb_raise_trace,
      (raise_trace_parts_disjoint s.timeOuts s.cancelCalls 0 0 cb).2.2,
      Nat.zero_add]

/-- Witness for C5: a signal with one timeout and one cancel callback,
raised three times, behaves as if raised once. -/
theorem quitSignal_raise_idempotent_witness :
    (1 : Nat) ≤ 3 ∧
    (QuitSignal.raiseMany ⟨false, [⟨1, 2⟩], [3]⟩ 3 =
      QuitSignal.raiseSignal ⟨false, [⟨1, 2⟩], [3]⟩) ∧
    (QuitSignal.raiseMany ⟨false, [⟨1, 2⟩], [3]⟩ 3).1.raised = true ∧
    (QuitSignal.raiseMany ⟨false, [⟨1, 2⟩], [3]⟩ 3).2.count
      (QSEvent.clearTimer 1) = 1 := by
  have h := quitSignal_raise_idempotent ⟨false, [⟨1, 2⟩], [3]⟩ 3 rfl
    (by decide)
  exact ⟨by decide, h.1, h.2.1, by rw [h.2.2.1 1]; decide⟩

/-- **C6.** Registration is gated on `raised`: after the signal is raised,
`addCancelCall` and `addTimeout` fail with the assertion error and no
registration is added; before it is raised they succeed, appending the
registration. -/
theorem quitSignal_registration_gate (s : QuitSignal) (c h cb : Nat) :
    (s.raised = true →
      s.addCancelCall c =
        Except.error "No calling addCancelCall after signal is raised" ∧
      s.addTimeout h cb =
        Except.error "No calling addTimeout after signal is raised") ∧
    (s.raised = false →
      s.addCancelCall c =
        Except.ok { s with cancelCalls := s.cancelCalls ++ [c] } ∧
      s.addTimeout h cb =
        Except.ok { s with timeOuts := s.timeOuts ++ [⟨h, cb⟩] }) := by
  constructor
  · intro hr
    exact ⟨by simp [QuitSignal.addCancelCall, hr],
      by simp [QuitSignal.addTimeout, hr]⟩
  · intro hr
    exact ⟨by simp [QuitSignal.addCancelCall, hr],
      by simp [QuitSignal.addTimeout, hr]⟩

/-- Witness for C6: registration fails on a raised signal and succeeds on
a fresh one. -/
theorem quitSignal_registration_gate_witness :
    (QuitSignal.addTimeout ⟨true, [], []⟩ 1 2 =
      Except.error "No calling addTimeout after signal is raised") ∧
    (QuitSignal.addCancelCall ⟨false, [], []⟩ 3 =
      Except.ok ⟨false, [], [3]⟩) :=
  ⟨((quitSignal_registration_gate ⟨true, [], []⟩ 3 1 2).1 rfl).2,
    ((quitSignal_registration_gate ⟨false, [], []⟩ 3 1 2).2 rfl).1⟩

/-- **C10.** `removeTimeout` called with a raw timer handle removes
nothing: the stored entries are the freshly allocated
`{timeOut, successCb}` records, never strictly equal to the raw handle,
so the state is returned unchanged, and a later `raiseSignal` still clears
the timer and invokes its completion callback with the neutral result. -/
theorem quitSignal_removeTimeout_raw_handle_noop (s : QuitSignal)
    (t cb h : Nat) (hr : s.raised = false) (hmem : (⟨t, cb⟩ : TimeoutEntry) ∈ s.timeOuts) :
    s.removeTimeout (QSVal.timerHandle h) = Except.ok s ∧
    QSEvent.clearTimer t ∈ s.raiseSignal.2 ∧
    QSEvent.successCbWithNull cb ∈ s.raiseSignal.2 := by
  refine ⟨?_, ?_, ?_⟩
  · simp only [QuitSignal.removeTimeout, hr, Bool.false_eq_true, if_false]
    congr 1
    have : s.timeOuts.filter
        (fun e => QSVal.entryRecord e ≠ QSVal.timerHandle h) = s.timeOuts :=
      List.filter_eq_self.mpr (fun a _ => by simp)
    cases s
    simp_all
  · simp only [QuitSignal.raiseSignal, hr, Bool.false_eq_true, if_false]
    simp only [List.mem_append, List.mem_flatMap]
    exact Or.inl ⟨⟨t, cb⟩, hmem, by simp⟩
  · simp only [QuitSignal.raiseSignal, hr, Bool.false_eq_true, if_false]
    simp only [List.mem_append, List.mem_flatMap]
    exact Or.inl ⟨⟨t, cb⟩, hmem, by simp⟩

/-- Witness for C10: removing by raw handle 5 from a signal holding the
record for timer 5 leaves it registered and raising still fires it. -/
theorem quitSignal_removeTimeout_raw_handle_noop_witness :
    QuitSignal.removeTimeout ⟨false, [⟨5, 7⟩], []⟩ (QSVal.timerHandle 5) =
      Except.ok ⟨false, [⟨5, 7⟩], []⟩ ∧
    QSEvent.clearTimer 5 ∈ (QuitSignal.raiseSignal ⟨false, [⟨5, 7⟩], []⟩).2 ∧
    QSEvent.successCbWithNull 7 ∈
      (QuitSignal.raiseSignal ⟨false, [⟨5, 7⟩], []⟩).2 :=
  quitSignal_removeTimeout_raw_handle_noop ⟨false, [⟨5, 7⟩], []⟩ 5 7 5 rfl
    (by decide)

/-! ## NotificationServer (`thaliNotificationServer.js`)

The enqueued operation body of `ThaliNotificationServer.prototype.start` is
embedded as a function from the server's mutable state, the call's input
and the transport promise's behaviour to the state afterwards, whether the
transport refresh was invoked, and the temporally ordered list of
settlement attempts made on the operation's promise.  A `return reject(e)`
inside the `forEach` callback returns only from the callback, so the
operation body keeps running after it; the promise itself keeps only the
first settlement attempt. -/

/-- A public key value as the `start` validation observes it:
`typeof publicKey` being `'object'`, and `publicKey.length`. -/
structure PublicKey where
  isObject : Bool
  length : Nat
  deriving DecidableEq, Repr

/-- The malformed-key test of `start`:
`typeof publicKey !== 'object' || publicKey.length === 0`. -/
def PublicKey.malformed (k : PublicKey) : Bool := !k.isObject || k.length == 0

/-- The errors `start` can surface. -/
inductive JsError where
  | badPublicKeys
  | invalidKey
  | transport (e : Nat)
  deriving DecidableEq, Repr

/-- The beacon blob, identified by the recipient keys it was generated
from (its byte content is opaque to the server). -/
structure Beacons where
  recipients : List PublicKey
  deriving DecidableEq, Repr

/-- Modelled from the spec: `generatePreambleAndBeacons` lives in
`thaliNotificationBeacons.js`, which is not among the provided sources.
Per the spec (§4.2, `generate`) it fails with an invalid-key error when
any recipient key is malformed (wrong length/type) and otherwise returns a
freshly generated preamble-and-beacons blob. -/
def generatePreambleAndBeacons (keys : List PublicKey) :
    Except JsError Beacons :=
  if keys.any PublicKey.malformed then Except.error JsError.invalidKey
  else Except.ok ⟨keys⟩

/-- The mutable fields of `ThaliNotificationServer` that `start` reads and
writes: `_firstStartCall` and `_preambleAndBeacons`. -/
structure ServerState where
  firstStartCall : Bool
  preambleAndBeacons : Option Beacons
  deriving DecidableEq, Repr

/-- The field values the constructor sets. -/
def ServerState.initial : ServerState := ⟨true, none⟩

/-- The argument of `start` as `Array.isArray` sees it. -/
inductive StartInput where
  | notAnArray
  | array (keys : List PublicKey)
  deriving DecidableEq, Repr

/-- One settlement attempt on the operation's promise. -/
inductive Settlement where
  | resolved
  | rejected (e : JsError)
  deriving DecidableEq, Repr

/-- The outcome of one enqueued `start` operation. -/
structure StartRun where
  state : ServerState
  transportCalled : Bool
  settlements : List Settlement
  deriving DecidableEq, Repr

/-- The tail of the `start` operation body, after `_preambleAndBeacons`
has been replaced: the first-call path registration (which only flips
`_firstStartCall` to false), the transport-refresh branch guarded by
`self._preambleAndBeacons != null || previousPreambleAndBeacons != null`,
and the unconditional synchronous `return resolve()` on the last line.
The transport promise's `.then`/`.catch` continuation runs on a microtask,
strictly after that synchronous `resolve()`, so its settlement attempt
comes last. -/
def startOpTail (st : ServerState) (previous : Option Beacons)
    (pending : List Settlement) (transportResult : Except JsError Unit) :
    StartRun :=
  let st' : ServerState := { st with firstStartCall := false }
  let callTransport := st'.preambleAndBeacons.isSome || previous.isSome
  let transportSettlements :=
    if callTransport then
      [match transportResult with
       | Except.ok _ => Settlement.resolved
       | Except.error e => Settlement.rejected e]
    else []
  ⟨st', callTransport, pending ++ [Settlement.resolved] ++ transportSettlements⟩

/-- The enqueued operation body of
`ThaliNotificationServer.prototype.start`. -/
def startOp (st : ServerState) (input : StartInput)
    (transportResult : Except JsError Unit) : StartRun :=
  let previousPreambleAndBeacons := st.preambleAndBeacons
  match input with
  | StartInput.notAnArray =>
    ⟨st, false, [Settlement.rejected JsError.badPublicKeys]⟩
  | StartInput.array keys =>
    let forEachRejects :=
      (keys.filter PublicKey.malformed).map
        (fun _ => Settlement.rejected JsError.badPublicKeys)
    if keys.isEmpty then
      startOpTail { st with preambleAndBeacons := none }
        previousPreambleAndBeacons forEachRejects transportResult
    else
      match generatePreambleAndBeacons keys with
      | Except.error e =>
        ⟨st, false, forEachRejects ++ [Settlement.rejected e]⟩
      | Except.ok b =>
        startOpTail { st with preambleAndBeacons := some b }
          previousPreambleAndBeacons forEachRejects transportResult

/-- A JS promise settles with its first settlement attempt and ignores the
rest. -/
def StartRun.promiseOutcome (r : StartRun) : Option Settlement :=
  r.settlements.head?

/-- The GET handler registered by `_registerNotificationPath`: 204 with an
empty body when no beacon is set, otherwise the raw blob as
`application/octet-stream` with caching disabled. -/
inductive GetResponse where
  | noContent
  | octetStream (body : Beacons)
  deriving DecidableEq, Repr

/-- `getBeaconNotifications` in `_registerNotificationPath`. -/
def getBeaconNotifications (st : ServerState) : GetResponse :=
  match st.preambleAndBeacons with
  | none => GetResponse.noContent
  | some b => GetResponse.octetStream b

/-! ### Theorems for C1, C2 and C7 -/

/-- **C1 (code bug).** A `start` call that reaches the transport branch
resolves its promise synchronously (line 127's unconditional
`return resolve()`) before the transport promise can settle, so when
`startUpdateAdvertisingAndListening` fails the rejection arrives second
and is ignored: the promise resolves and the transport error is swallowed,
contradicting the spec and the code's own comment 'Returns errors from
startUpdateAdvertisingAndListening'.  Evaluated at a failing input: a
first `start` with one well-formed key and a failing transport. -/
theorem start_swallows_transport_error :
    (startOp ServerState.initial (StartInput.array [⟨true, 1⟩])
      (Except.error (JsError.transport 0))).transportCalled = true ∧
    (startOp ServerState.initial (StartInput.array [⟨true, 1⟩])
      (Except.error (JsError.transport 0))).promiseOutcome =
      some Settlement.resolved ∧
    Settlement.rejected (JsError.transport 0) ∈
      (startOp ServerState.initial (StartInput.array [⟨true, 1⟩])
        (Except.error (JsError.transport 0))).settlements := by
  decide

/-- **C2.** A `start` call with a non-empty key array containing a
malformed key rejects its promise (first settlement attempt is the
`'bad public keys'` rejection) and leaves the server state — hence what a
subsequent GET on the beacon path observes — wholly unchanged; the
transport refresh is not invoked. -/
theorem start_malformed_keys_rejects_unchanged (st : ServerState)
    (keys : List PublicKey) (tr : Except JsError Unit)
    (hbad : keys.any PublicKey.malformed = true) :
    (startOp st (StartInput.array keys) tr).state = st ∧
    (startOp st (StartInput.array keys) tr).promiseOutcome =
      some (Settlement.rejected JsError.badPublicKeys) ∧
    (startOp st (StartInput.array keys) tr).transportCalled = false ∧
    getBeaconNotifications (startOp st (StartInput.array keys) tr).state =
      getBeaconNotifications st := by
  have hne : keys.isEmpty = false := by
    cases keys with
    | nil => simp at hbad
    | cons a l => rfl
  have hgen : generatePreambleAndBeacons keys = Except.error JsError.invalidKey := by
    simp [generatePreambleAndBeacons, hbad]
  have hfilter : keys.filter PublicKey.malformed ≠ [] := by
    rw [List.any_eq_true] at hbad
    obtain ⟨k, hk, hmk⟩ := hbad
    exact List.ne_nil_of_mem (List.mem_filter.mpr ⟨hk, hmk⟩)
  obtain ⟨c, l', hcl⟩ := List.exists_cons_of_ne_nil hfilter
  have hrun : startOp st (StartInput.array keys) tr =
      ⟨st, false,
        (keys.filter PublicKey.malformed).map
          (fun _ => Settlement.rejected JsError.badPublicKeys) ++
        [Settlement.rejected JsError.invalidKey]⟩ := by
    simp [startOp, hne, hgen]
  refine ⟨by rw [hrun], ?_, by rw [hrun], by rw [hrun]⟩
  rw [hrun]
  simp [StartRun.promiseOutcome, hcl]

/-- Witness for C2: a server already advertising for one key, started
again with a zero-length key among the inputs. -/
theorem start_malformed_keys_rejects_unchanged_witness :
    (startOp ⟨false, some ⟨[⟨true, 1⟩]⟩⟩
        (StartInput.array [⟨true, 1⟩, ⟨true, 0⟩]) (Except.ok ())).state =
      ⟨false, some ⟨[⟨true, 1⟩]⟩⟩ ∧
    (startOp ⟨false, some ⟨[⟨true, 1⟩]⟩⟩
        (StartInput.array [⟨true, 1⟩, ⟨true, 0⟩]) (Except.ok ())).promiseOutcome =
      some (Settlement.rejected JsError.badPublicKeys) ∧
    (startOp ⟨false, some ⟨[⟨true, 1⟩]⟩⟩
        (StartInput.array [⟨true, 1⟩, ⟨true, 0⟩]) (Except.ok ())).transportCalled =
      false ∧
    getBeaconNotifications (startOp ⟨false, some ⟨[⟨true, 1⟩]⟩⟩
        (StartInput.array [⟨true, 1⟩, ⟨true, 0⟩]) (Except.ok ())).state =
      getBeaconNotifications ⟨false, some ⟨[⟨true, 1⟩]⟩⟩ :=
  start_malformed_keys_rejects_unchanged ⟨false, some ⟨[⟨true, 1⟩]⟩⟩
    [⟨true, 1⟩, ⟨true, 0⟩] (Except.ok ()) (by decide)

/-- **C7 (counterexample).** `start([k1])` followed by `start([k1])`: on
the second call the old and the new beacon state are both non-nil, so the
claimed condition 'old state nil XOR new state nil' is false, yet the
transport refresh is invoked — the code guards the refresh with
`new != null || old != null`, not with the XOR transition check. -/
theorem start_refresh_not_xor :
    ((startOp (startOp ServerState.initial (StartInput.array [⟨true, 1⟩])
        (Except.ok ())).state (StartInput.array [⟨true, 1⟩])
        (Except.ok ())).transportCalled = true) ∧
    (Bool.xor
      (startOp ServerState.initial (StartInput.array [⟨true, 1⟩])
        (Except.ok ())).state.preambleAndBeacons.isNone
      (startOp (startOp ServerState.initial (StartInput.array [⟨true, 1⟩])
        (Except.ok ())).state (StartInput.array [⟨true, 1⟩])
        (Except.ok ())).state.preambleAndBeacons.isNone = false) := by
  decide

/-- **C7 (amended).** For every `start` call whose input passes validation
(an array of well-formed keys), the transport refresh is invoked iff at
least one of the old and the new beacon state is non-nil (the new state
being non-nil iff the key array is non-empty).  In particular `start([])`
immediately followed by `start([])` triggers no refresh on the second
call, and `start([k1])` followed by `start([])` triggers one. -/
theorem start_refresh_iff_either_nonnil (st : ServerState)
    (keys : List PublicKey) (tr : Except JsError Unit)
    (hok : keys.any PublicKey.malformed = false) :
    (startOp st (StartInput.array keys) tr).transportCalled =
      (st.preambleAndBeacons.isSome ||
        (startOp st (StartInput.array keys) tr).state.preambleAndBeacons.isSome) ∧
    (startOp st (StartInput.array keys) tr).state.preambleAndBeacons.isSome =
      !keys.isEmpty := by
  cases hkeys : keys.isEmpty
  · have hgen : generatePreambleAndBeacons keys = Except.ok ⟨keys⟩ := by
      simp [generatePreambleAndBeacons, hok]
    constructor
    · simp [startOp, hkeys, hgen, startOpTail, Bool.or_comm]
    · simp [startOp, hkeys, hgen, startOpTail]
  · constructor
    · simp [startOp, hkeys, startOpTail, Bool.or_comm]
    · simp [startOp, hkeys, startOpTail]

/-- Witness for C7 (amended): the two spec scenarios.  After `start([])`
from the initial state, a second `start([])` does not invoke the refresh;
after `start([k1])`, a `start([])` invokes it. -/
theorem start_refresh_iff_either_nonnil_witness :
    ((startOp (startOp ServerState.initial (StartInput.array [])
        (Except.ok ())).state (StartInput.array [])
        (Except.ok ())).transportCalled = false) ∧
    ((startOp (startOp ServerState.initial (StartInput.array [⟨true, 1⟩])
        (Except.ok ())).state (StartInput.array [])
        (Except.ok ())).transportCalled = true) := by
  have h1 := start_refresh_iff_either_nonnil
    (startOp ServerState.initial (StartInput.array []) (Except.ok ())).state
    [] (Except.ok ()) (by decide)
  have h2 := start_refresh_iff_either_nonnil
    (startOp ServerState.initial (StartInput.array [⟨true, 1⟩])
      (Except.ok ())).state [] (Except.ok ()) (by decide)
  refine ⟨?_, ?_⟩
  · rw [h1.1]; decide
  · rw [h2.1]; decide

/-! ## serverRound (`testThaliMobileNative.js`)

The server side of a round is embedded as a transition system over the
observable socket events: a connection's single round message arriving
(`getMessageByLength` resolving with the parsed bytes), and a socket's
`'end'` event.  Connections are identified by opaque ids. -/

/-- `createMessage(code)`: the local uuid, the one-byte code, the
canonical bulk payload, as `parseMessage` reads it back. -/
def createMessage (t : TestCtx) (code : String) : ParsedMessage :=
  ⟨t.localUuid, code, t.bulkMessage⟩

/-- An observable event during a server round. -/
inductive SrvEvent where
  | message (connId : Nat) (m : ParsedMessage)
  | socketEnd (connId : Nat)
  deriving DecidableEq, Repr

/-- The per-round server state: the responses written so far (each write
is immediately followed by `socket.end()`, closing the write side), the
SUCCESS connections whose `'end'` handler is armed together with the
sender uuid it will record, the `validPeersForThisRound` array, and
whether `resolve()` has been called. -/
structure SrvState where
  responses : List (Nat × ParsedMessage)
  pendingEnd : List (Nat × String)
  validPeers : List String
  resolved : Bool
  deriving DecidableEq, Repr

/-- The state at the start of a round. -/
def SrvState.initial : SrvState := ⟨[], [], [], false⟩

/-- The body of the armed `'end'` handler: push the sender's uuid onto
`validPeersForThisRound` and call `resolve()` if the array now has
`t.participants.length - 1` entries. -/
def SrvState.pushValid (n : Nat) (st : SrvState) (u : String) : SrvState :=
  let vp := st.validPeers ++ [u]
  { st with validPeers := vp, resolved := st.resolved || vp.length == n - 1 }

/-- One step of the server round's connection listener. -/
def srvStep (t : TestCtx) (roundNumber : Nat) (st : SrvState) :
    SrvEvent → SrvState
  | SrvEvent.message c m =>
    let r := validateRequest t roundNumber m
    let st' : SrvState :=
      { st with responses := st.responses ++ [(c, createMessage t r.code)] }
    match r with
    | ProtocolResult.SUCCESS =>
      { st' with pendingEnd := st'.pendingEnd ++ [(c, m.uuid)] }
    | _ => st'
  | SrvEvent.socketEnd c =>
    let fired := st.pendingEnd.filter (fun p => p.1 == c)
    let rest := st.pendingEnd.filter (fun p => p.1 != c)
    (fired.map Prod.snd).foldl (SrvState.pushValid t.participants.length)
      { st with pendingEnd := rest }

/-- A whole server round: fold the listener over the event trace. -/
def srvRun (t : TestCtx) (roundNumber : Nat) (events : List SrvEvent) :
    SrvState :=
  events.foldl (srvStep t roundNumber) SrvState.initial

/-- Folding the `'end'` handler over a batch of recorded uuids preserves
the resolution invariant and any per-uuid property, and touches neither
the responses nor the armed handlers. -/
theorem pushValid_foldl (n : Nat) (_hn : 1 ≤ n - 1) (Q : String → Prop)
    (us : List String) (st : SrvState)
    (hres : st.resolved = true ↔ n - 1 ≤ st.validPeers.length)
    (hvp : ∀ u ∈ st.validPeers, Q u) (hus : ∀ u ∈ us, Q u) :
    ((us.foldl (SrvState.pushValid n) st).resolved = true ↔
      n - 1 ≤ (us.foldl (SrvState.pushValid n) st).validPeers.length) ∧
    (∀ u ∈ (us.foldl (SrvState.pushValid n) st).validPeers, Q u) ∧
    (us.foldl (SrvState.pushValid n) st).responses = st.responses ∧
    (us.foldl (SrvState.pushValid n) st).pendingEnd = st.pendingEnd := by
  induction us generalizing st with
  | nil => exact ⟨hres, hvp, rfl, rfl⟩
  | cons u us ih =>
    simp only [List.foldl_cons]
    refine ih (st.pushValid n u) ?_ ?_ (fun v hv => hus v (List.mem_cons_of_mem u hv))
    · simp only [SrvState.pushValid, List.length_append, List.length_cons,
        List.length_nil]
      cases hr : st.resolved with
      | true =>
        have hle := hres.mp hr
        simp only [Bool.true_or, true_iff]
        omega
      | false =>
        have hlt : ¬ n - 1 ≤ st.validPeers.length := fun hle =>
          by simp [hres.mpr hle] at hr
        simp only [Bool.false_or, beq_iff_eq]
        omega
    · intro v hv
      simp only [SrvState.pushValid, List.mem_append] at hv
      rcases hv with hv | hv
      · exact hvp v hv
      · exact hus v (by simp [List.mem_singleton.mp hv])

/-- The per-trace invariant of a server round, relative to the events seen
so far. -/
def SrvInv (t : TestCtx) (roundNumber : Nat) (tr : List SrvEvent)
    (st : SrvState) : Prop :=
  (∀ p ∈ st.responses, (p.2).uuid = t.localUuid ∧
    (p.2).bulkData = t.bulkMessage ∧
    ∃ m, SrvEvent.message p.1 m ∈ tr ∧
      (p.2).code = (validateRequest t roundNumber m).code) ∧
  (∀ q ∈ st.pendingEnd,
    ∃ m, SrvEvent.message q.1 m ∈ tr ∧
      validateRequest t roundNumber m = ProtocolResult.SUCCESS ∧
      m.uuid = q.2) ∧
  (∀ u ∈ st.validPeers,
    ∃ c m, SrvEvent.message c m ∈ tr ∧
      validateRequest t roundNumber m = ProtocolResult.SUCCESS ∧
      m.uuid = u ∧ SrvEvent.socketEnd c ∈ tr) ∧
  (st.resolved = true ↔ t.participants.length - 1 ≤ st.validPeers.length)

/-- One listener step preserves the invariant, the new event appended to
the seen trace. -/
theorem srvStep_preserves (t : TestCtx) (roundNumber : Nat)
    (hp : 1 ≤ t.participants.length - 1) (tr : List SrvEvent)
    (st : SrvState) (ev : SrvEvent) (h : SrvInv t roundNumber tr st) :
    SrvInv t roundNumber (tr ++ [ev]) (srvStep t roundNumber st ev) := by
  obtain ⟨hresp, hpend, hvalid, hres⟩ := h
  cases ev with
  | message c m =>
    have hcommon :
        SrvInv t roundNumber (tr ++ [SrvEvent.message c m])
          { st with responses :=
              st.responses ++
                [(c, createMessage t (validateRequest t roundNumber m).code)] } ∧
        ∀ st' : SrvState,
          st' = { st with
              responses :=
                st.responses ++
                  [(c, createMessage t (validateRequest t roundNumber m).code)],
              pendingEnd := st.pendingEnd ++ [(c, m.uuid)] } →
          validateRequest t roundNumber m = ProtocolResult.SUCCESS →
          SrvInv t roundNumber (tr ++ [SrvEvent.message c m]) st' := by
      constructor
      · refine ⟨?_, ?_, ?_, hres⟩
        · intro p hpmem
          rcases List.mem_append.mp hpmem with hpm | hpm
          · obtain ⟨h1, h2, m', hm', h3⟩ := hresp p hpm
            exact ⟨h1, h2, m', List.mem_append_left _ hm', h3⟩
          · rcases List.mem_singleton.mp hpm with rfl
            exact ⟨rfl, rfl, m, List.mem_append_right _ (List.mem_singleton.mpr rfl),
              rfl⟩
        · intro q hq
          obtain ⟨m', hm', h1, h2⟩ := hpend q hq
          exact ⟨m', List.mem_append_left _ hm', h1, h2⟩
        · intro u hu
          obtain ⟨c', m', hm', h1, h2, h3⟩ := hvalid u hu
          exact ⟨c', m', List.mem_append_left _ hm', h1, h2,
            List.mem_append_left _ h3⟩
      · rintro st' rfl hsucc
        refine ⟨?_, ?_, ?_, hres⟩
        · intro p hpmem
          rcases List.mem_append.mp hpmem with hpm | hpm
          · obtain ⟨h1, h2, m', hm', h3⟩ := hresp p hpm
            exact ⟨h1, h2, m', List.mem_append_left _ hm', h3⟩
          · rcases List.mem_singleton.mp hpm with rfl
            exact ⟨rfl, rfl, m, List.mem_append_right _ (List.mem_singleton.mpr rfl),
              rfl⟩
        · intro q hq
          rcases List.mem_append.mp hq with hqm | hqm
          · obtain ⟨m', hm', h1, h2⟩ := hpend q hqm
            exact ⟨m', List.mem_append_left _ hm', h1, h2⟩
          · rcases List.mem_singleton.mp hqm with rfl
            exact ⟨m, List.mem_append_right _ (List.mem_singleton.mpr rfl), hsucc,
              rfl⟩
        · intro u hu
          obtain ⟨c', m', hm', h1, h2, h3⟩ := hvalid u hu
          exact ⟨c', m', List.mem_append_left _ hm', h1, h2,
            List.mem_append_left _ h3⟩
    rcases hr : validateRequest t roundNumber m with _ | _ | _ | _ | _ <;>
      simp only [srvStep, hr] <;>
      first
        | exact hcommon.2 _ (by rw [← hr]) hr
        | exact (by rw [← hr]; exact hcommon.1)
  | socketEnd c =>
    simp only [srvStep]
    have hrest : ∀ q ∈ st.pendingEnd.filter (fun p => p.1 != c),
        ∃ m, SrvEvent.message q.1 m ∈ tr ++ [SrvEvent.socketEnd c] ∧
          validateRequest t roundNumber m = ProtocolResult.SUCCESS ∧
          m.uuid = q.2 := by
      intro q hq
      obtain ⟨m', hm', h1, h2⟩ := hpend q (List.mem_of_mem_filter hq)
      exact ⟨m', List.mem_append_left _ hm', h1, h2⟩
    have hQ : ∀ u ∈ (st.pendingEnd.filter (fun p => p.1 == c)).map Prod.snd,
        ∃ c' m, SrvEvent.message c' m ∈ tr ++ [SrvEvent.socketEnd c] ∧
          validateRequest t roundNumber m = ProtocolResult.SUCCESS ∧
          m.uuid = u ∧ SrvEvent.socketEnd c' ∈ tr ++ [SrvEvent.socketEnd c] := by
      intro u hu
      obtain ⟨q, hqmem, hqu⟩ := List.mem_map.mp hu
      have hqc : q.1 = c := by
        have := List.of_mem_filter hqmem
        simpa using this
      obtain ⟨m', hm', h1, h2⟩ := hpend q (List.mem_of_mem_filter hqmem)
      exact ⟨q.1, m', List.mem_append_left _ hm', h1, hqu ▸ h2,
        by rw [hqc]; exact List.mem_append_right _ (List.mem_singleton.mpr rfl)⟩
    have hfold := pushValid_foldl t.participants.length hp
      (fun u => ∃ c' m, SrvEvent.message c' m ∈ tr ++ [SrvEvent.socketEnd c] ∧
        validateRequest t roundNumber m = ProtocolResult.SUCCESS ∧
        m.uuid = u ∧ SrvEvent.socketEnd c' ∈ tr ++ [SrvEvent.socketEnd c])
      ((st.pendingEnd.filter (fun p => p.1 == c)).map Prod.snd)
      { st with pendingEnd := st.pendingEnd.filter (fun p => p.1 != c) }
      hres
      (fun u hu => by
        obtain ⟨c', m', hm', h1, h2, h3⟩ := hvalid u hu
        exact ⟨c', m', List.mem_append_left _ hm', h1, h2,
          List.mem_append_left _ h3⟩)
      hQ
    refine ⟨?_, ?_, hfold.2.1, hfold.1⟩
    · intro p hpmem
      rw [hfold.2.2.1] at hpmem
      obtain ⟨h1, h2, m', hm', h3⟩ := hresp p hpmem
      exact ⟨h1, h2, m', List.mem_append_left _ hm', h3⟩
    · intro q hq
      rw [hfold.2.2.2] at hq
      exact hrest q hq

/-- Folding the listener over a trace suffix, carrying the invariant. -/
theorem srvRun_invariant_aux (t : TestCtx) (roundNumber : Nat)
    (hp : 1 ≤ t.participants.length - 1) (tr2 : List SrvEvent) :
    ∀ (tr1 : List SrvEvent) (st : SrvState), SrvInv t roundNumber tr1 st →
      SrvInv t roundNumber (tr1 ++ tr2)
        (tr2.foldl (srvStep t roundNumber) st) := by
  induction tr2 with
  | nil => intro tr1 st h; simpa using h
  | cons ev tr2 ih =>
    intro tr1 st h
    have h1 := srvStep_preserves t roundNumber hp tr1 st ev h
    have h2 := ih (tr1 ++ [ev]) (srvStep t roundNumber st ev) h1
    simpa using h2

/-- **C8.** In every server round over any event trace (with at least two
participants): every response written (each immediately followed by
closing the write side) carries the server's own uuid, the canonical bulk
payload, and the outcome code computed by `validateRequest` for the
message that triggered it; a uuid enters `validPeersForThisRound` only if
some connection delivered a message from that uuid whose outcome was
`SUCCESS` and that connection's `'end'` was observed; and the round has
resolved exactly when `validPeersForThisRound` has reached
`participants.length - 1` entries. -/
theorem serverRound_protocol (t : TestCtx) (roundNumber : Nat)
    (events : List SrvEvent) (hp : 2 ≤ t.participants.length) :
    (∀ p ∈ (srvRun t roundNumber events).responses,
      (p.2).uuid = t.localUuid ∧ (p.2).bulkData = t.bulkMessage ∧
      ∃ m, SrvEvent.message p.1 m ∈ events ∧
        (p.2).code = (validateRequest t roundNumber m).code) ∧
    (∀ u ∈ (srvRun t roundNumber events).validPeers,
      ∃ c m, SrvEvent.message c m ∈ events ∧
        validateRequest t roundNumber m = ProtocolResult.SUCCESS ∧
        m.uuid = u ∧ SrvEvent.socketEnd c ∈ events) ∧
    ((srvRun t roundNumber events).resolved = true ↔
      t.participants.length - 1 ≤
        (srvRun t roundNumber events).validPeers.length) := by
  have hp' : 1 ≤ t.participants.length - 1 := by omega
  have hinit : SrvInv t roundNumber [] SrvState.initial := by
    refine ⟨?_, ?_, ?_, ?_⟩
    · intro p hp2; simp [SrvState.initial] at hp2
    · intro q hq; simp [SrvState.initial] at hq
    · intro u hu; simp [SrvState.initial] at hu
    · simp only [SrvState.initial]
      constructor
      · intro h; simp at h
      · intro h; simp at h; omega
  have h := srvRun_invariant_aux t roundNumber hp' events [] SrvState.initial
    hinit
  simp only [List.nil_append] at h
  exact ⟨h.1, h.2.2.1, h.2.2.2⟩

/-- Witness for C8: participants `{A, B, C}`, local peer `A`, round 0;
messages from `B` and `C` validate and their sockets close, after which
the round is resolved with exactly the two peers recorded. -/
theorem serverRound_protocol_witness :
    (srvRun ⟨["A", "B", "C"], "A", [1]⟩ 0
      [SrvEvent.message 1 ⟨"B", "0", [1]⟩, SrvEvent.socketEnd 1,
       SrvEvent.message 2 ⟨"C", "0", [1]⟩, SrvEvent.socketEnd 2]).resolved =
      true ∧
    (srvRun ⟨["A", "B", "C"], "A", [1]⟩ 0
      [SrvEvent.message 1 ⟨"B", "0", [1]⟩, SrvEvent.socketEnd 1,
       SrvEvent.message 2 ⟨"C", "0", [1]⟩, SrvEvent.socketEnd 2]).validPeers =
      ["B", "C"] := by
  have h := serverRound_protocol ⟨["A", "B", "C"], "A", [1]⟩ 0
    [SrvEvent.message 1 ⟨"B", "0", [1]⟩, SrvEvent.socketEnd 1,
     SrvEvent.message 2 ⟨"C", "0", [1]⟩, SrvEvent.socketEnd 2] (by decide)
  exact ⟨h.2.2.mpr (by decide), by decide⟩

/-! ## PeerIdentifier (`PeerIdentifier.swift`)

Swift's `String(n, radix: 16)` renders lowercase hexadecimal (with a
leading `-` for negative values); `Int(s, radix: 16)` accepts an optional
sign followed by at least one hex digit; `characters.split { $0 == ":" }`
splits on the separator omitting empty subsequences.  Swift's `Int` is
embedded as unbounded `Int` (the claims stay far from the 64-bit range). -/

/-- `PeerIdentifierError`. -/
inductive PeerIdentifierError where
  | WrongDataFormat
  deriving DecidableEq, Repr

/-- `struct PeerIdentifier`. -/
structure PeerIdentifier where
  uuid : String
  generation : Int
  deriving DecidableEq, Repr

/-- The lowercase hexadecimal digit for a value below 16. -/
def hexDigit : Nat → Char
  | 0 => '0' | 1 => '1' | 2 => '2' | 3 => '3' | 4 => '4' | 5 => '5'
  | 6 => '6' | 7 => '7' | 8 => '8' | 9 => '9' | 10 => 'a' | 11 => 'b'
  | 12 => 'c' | 13 => 'd' | 14 => 'e' | _ => 'f'

/-- Hex rendering of a natural number, most significant digit first;
`fuel` bounds the recursion depth so the definition is structural (any
`fuel > n` yields the digits of `n`). -/
def natHexCharsAux : Nat → Nat → List Char
  | 0, _ => []
  | fuel + 1, n =>
    if n < 16 then [hexDigit n]
    else natHexCharsAux fuel (n / 16) ++ [hexDigit (n % 16)]

/-- The digit list of Swift's `String(n, radix: 16)` for `n ≥ 0`. -/
def natHexChars (n : Nat) : List Char := natHexCharsAux (n + 1) n

/-- Swift's `String(i, radix: 16)`. -/
def intHexString (i : Int) : String :=
  if i < 0 then "-" ++ String.mk (natHexChars i.natAbs)
  else String.mk (natHexChars i.toNat)

/-- The numeric value of a hex digit character (upper or lower case), as
Swift's radix-16 parsing accepts it. -/
def hexDigitVal (c : Char) : Option Nat :=
  if '0' ≤ c ∧ c ≤ '9' then some (c.toNat - '0'.toNat)
  else if 'a' ≤ c ∧ c ≤ 'f' then some (c.toNat - 'a'.toNat + 10)
  else if 'A' ≤ c ∧ c ≤ 'F' then some (c.toNat - 'A'.toNat + 10)
  else none

/-- Radix-16 accumulation over a digit list; `none` on the first
non-digit. -/
def parseHexLoop (acc : Nat) : List Char → Option Nat
  | [] => some acc
  | c :: cs =>
    match hexDigitVal c with
    | none => none
    | some d => parseHexLoop (acc * 16 + d) cs

/-- An unsigned hex digit string: at least one digit, all digits. -/
def parseHexNat (l : List Char) : Option Nat :=
  if l.isEmpty then none else parseHexLoop 0 l

/-- Swift's `Int(s, radix: 16)`: an optional sign, then at least one hex
digit. -/
def parseHexInt (l : List Char) : Option Int :=
  match l with
  | [] => none
  | c :: cs =>
    if c = '-' then (parseHexNat cs).map (fun n => -(n : Int))
    else if c = '+' then (parseHexNat cs).map (fun n => (n : Int))
    else (parseHexNat (c :: cs)).map (fun n => (n : Int))

/-- Splitting a character list at every separator, keeping empty pieces
(`[[]]` on the empty list). -/
def splitAll (sep : Char) : List Char → List (List Char)
  | [] => [[]]
  | c :: rest =>
    match splitAll sep rest with
    | [] => [[]]
    | h :: t => if c = sep then [] :: h :: t else (c :: h) :: t

/-- Swift's `characters.split { $0 == sep }`: the pieces between
separators, empty subsequences omitted. -/
def swiftSplit (sep : Char) (l : List Char) : List (List Char) :=
  (splitAll sep l).filter (fun p => !p.isEmpty)

/-- `var stringValue`: `"\(uuid):\(String(generation, radix: 16))"`. -/
def PeerIdentifier.stringValue (p : PeerIdentifier) : String :=
  p.uuid ++ ":" ++ intHexString p.generation

/-- `init(stringValue:)`: split on `:`, require exactly two parts, parse
the second as radix-16. -/
def PeerIdentifier.initStringValue (s : String) :
    Except PeerIdentifierError PeerIdentifier :=
  match swiftSplit ':' s.data with
  | [p0, p1] =>
    match parseHexInt p1 with
    | none => Except.error PeerIdentifierError.WrongDataFormat
    | some g => Except.ok ⟨String.mk p0, g⟩
  | _ => Except.error PeerIdentifierError.WrongDataFormat

/-- `func nextGenerationPeer()`: same uuid, generation + 1. -/
def PeerIdentifier.nextGenerationPeer (p : PeerIdentifier) : PeerIdentifier :=
  ⟨p.uuid, p.generation + 1⟩

/-! ### Supporting lemmas for C9 -/

/-- Every rendered hex digit parses back to its value. -/
theorem hexDigitVal_hexDigit (d : Nat) (hd : d < 16) :
    hexDigitVal (hexDigit d) = some d := by
  interval_cases d <;> decide

/-- A rendered hex digit is never a separator or a sign. -/
theorem hexDigit_not_special (d : Nat) :
    hexDigit d ≠ ':' ∧ hexDigit d ≠ '-' ∧ hexDigit d ≠ '+' := by
  unfold hexDigit
  split <;> exact ⟨by decide, by decide, by decide⟩

/-- Accumulation distributes over list append. -/
theorem parseHexLoop_append (l1 l2 : List Char) :
    ∀ acc, parseHexLoop acc (l1 ++ l2) =
      match parseHexLoop acc l1 with
      | none => none
      | some m => parseHexLoop m l2 := by
  induction l1 with
  | nil => intro acc; rfl
  | cons c cs ih =>
    intro acc
    simp only [List.cons_append, parseHexLoop]
    cases hexDigitVal c with
    | none => rfl
    | some d => exact ih (acc * 16 + d)

/-- With enough fuel, the rendered digits of `n` are nonempty, contain no
separator or sign, and accumulate back to `n`. -/
theorem natHexCharsAux_spec (fuel : Nat) :
    ∀ n, n < fuel →
      natHexCharsAux fuel n ≠ [] ∧
      (∀ c ∈ natHexCharsAux fuel n, c ≠ ':' ∧ c ≠ '-' ∧ c ≠ '+') ∧
      (∀ acc, parseHexLoop acc (natHexCharsAux fuel n) =
        some (acc * 16 ^ (natHexCharsAux fuel n).length + n)) := by
  induction fuel with
  | zero => intro n hn; omega
  | succ f ih =>
    intro n hn
    by_cases h16 : n < 16
    · refine ⟨by simp [natHexCharsAux, h16], ?_, ?_⟩
      · intro c hc
        simp only [natHexCharsAux, h16, if_true, List.mem_singleton] at hc
        exact hc ▸ hexDigit_not_special n
      · intro acc
        simp only [natHexCharsAux, h16, if_true, parseHexLoop,
          hexDigitVal_hexDigit n h16, List.length_singleton, pow_one]
    · have hdiv : n / 16 < f := by
        have h1 : n / 16 < n := Nat.div_lt_self (by omega) (by omega)
        omega
      obtain ⟨hne, hchars, hacc⟩ := ih (n / 16) hdiv
      have heq : natHexCharsAux (f + 1) n =
          natHexCharsAux f (n / 16) ++ [hexDigit (n % 16)] := by
        simp [natHexCharsAux, h16]
      refine ⟨by simp [heq], ?_, ?_⟩
      · intro c hc
        rw [heq, List.mem_append] at hc
        rcases hc with hc | hc
        · exact hchars c hc
        · rcases List.mem_singleton.mp hc with rfl
          exact hexDigit_not_special (n % 16)
      · intro acc
        rw [heq, parseHexLoop_append, hacc acc]
        have hmod : n % 16 < 16 := Nat.mod_lt n (by omega)
        simp only [parseHexLoop, hexDigitVal_hexDigit (n % 16) hmod,
          List.length_append, List.length_singleton]
        congr 1
        have := Nat.div_add_mod n 16
        rw [pow_succ]
        ring_nf
        omega

/-- The digits of `n` are nonempty, special-character-free, and parse
back to `n`. -/
theorem natHexChars_spec (n : Nat) :
    natHexChars n ≠ [] ∧
    (∀ c ∈ natHexChars n, c ≠ ':' ∧ c ≠ '-' ∧ c ≠ '+') ∧
    parseHexNat (natHexChars n) = some n := by
  obtain ⟨hne, hchars, hacc⟩ := natHexCharsAux_spec (n + 1) n (by omega)
  have hu : natHexChars n = natHexCharsAux (n + 1) n := rfl
  refine ⟨by rw [hu]; exact hne, by rw [hu]; exact hchars, ?_⟩
  rw [parseHexNat, hu, if_neg (by simpa using hne), hacc 0]
  simp

/-- `splitAll` never returns the empty list of pieces. -/
theorem splitAll_ne_nil (sep : Char) (l : List Char) :
    splitAll sep l ≠ [] := by
  cases l with
  | nil => simp [splitAll]
  | cons c rest =>
    simp only [splitAll]
    rcases h : splitAll sep rest with _ | ⟨hd, tl⟩
    · simp
    · by_cases hc : c = sep <;> simp [hc]

/-- A separator-free list is one piece. -/
theorem splitAll_no_sep (sep : Char) (l : List Char) (h : sep ∉ l) :
    splitAll sep l = [l] := by
  induction l with
  | nil => rfl
  | cons c rest ih =>
    have hc : c ≠ sep := fun hc => h (hc ▸ List.mem_cons_self c rest)
    have hrest : sep ∉ rest := fun hr => h (List.mem_cons_of_mem c hr)
    simp [splitAll, ih hrest, hc]

/-- Splitting around one separator after a separator-free prefix. -/
theorem splitAll_append_sep (sep : Char) (l1 l2 : List Char)
    (h : sep ∉ l1) :
    splitAll sep (l1 ++ sep :: l2) = l1 :: splitAll sep l2 := by
  induction l1 with
  | nil =>
    simp only [List.nil_append, splitAll]
    rcases hs : splitAll sep l2 with _ | ⟨hd, tl⟩
    · exact absurd hs (splitAll_ne_nil sep l2)
    · simp
  | cons c rest ih =>
    have hc : c ≠ sep := fun hc => h (hc ▸ List.mem_cons_self c rest)
    have hrest : sep ∉ rest := fun hr => h (List.mem_cons_of_mem c hr)
    simp only [List.cons_append, splitAll, List.append_eq]
    rw [ih hrest]
    simp [hc]

/-! ### Theorems for C9 -/

/-- **C9 (counterexample).** The empty uuid contains no `:` and has
generation `0 ≥ 0`, yet parsing its serialization `":0"` fails: the split
omits the empty piece before the separator, leaving one part instead of
two, so `init(stringValue:)` throws `WrongDataFormat` instead of round
tripping. -/
theorem peerIdentifier_roundtrip_fails_on_empty_uuid :
    (':' ∉ ("" : String).data) ∧
    (0 : Int) ≥ 0 ∧
    PeerIdentifier.stringValue ⟨"", 0⟩ = ":0" ∧
    PeerIdentifier.initStringValue (PeerIdentifier.stringValue ⟨"", 0⟩) =
      Except.error PeerIdentifierError.WrongDataFormat :=
  ⟨by decide, by decide, rfl, rfl⟩

/-- **C9 (amended).** For every `PeerIdentifier` whose uuid is non-empty
and contains no `:` and whose generation is non-negative: serialization
produces `uuid : hex(generation)` (lowercase hex), parsing that string
back succeeds with the same uuid and generation, and `nextGenerationPeer`
keeps the uuid and increments the generation by one. -/
theorem peerIdentifier_roundtrip (uuid : String) (g : Int)
    (hne : uuid.data ≠ []) (hcolon : ':' ∉ uuid.data) (hg : 0 ≤ g) :
    PeerIdentifier.stringValue ⟨uuid, g⟩ =
      uuid ++ ":" ++ String.mk (natHexChars g.toNat) ∧
    PeerIdentifier.initStringValue (PeerIdentifier.stringValue ⟨uuid, g⟩) =
      Except.ok ⟨uuid, g⟩ ∧
    PeerIdentifier.nextGenerationPeer ⟨uuid, g⟩ = ⟨uuid, g + 1⟩ := by
  have hhex : intHexString g = String.mk (natHexChars g.toNat) := by
    rw [intHexString, if_neg (by omega)]
  refine ⟨by rw [PeerIdentifier.stringValue, hhex], ?_, rfl⟩
  obtain ⟨hhne, hhchars, hhparse⟩ := natHexChars_spec g.toNat
  have hdata : (PeerIdentifier.stringValue ⟨uuid, g⟩).data =
      uuid.data ++ ':' :: natHexChars g.toNat := by
    rw [PeerIdentifier.stringValue, hhex]
    simp [String.data_append]
  rw [PeerIdentifier.initStringValue, hdata]
  have hsplit : swiftSplit ':' (uuid.data ++ ':' :: natHexChars g.toNat) =
      [uuid.data, natHexChars g.toNat] := by
    rw [swiftSplit, splitAll_append_sep ':' uuid.data _ hcolon,
      splitAll_no_sep ':' (natHexChars g.toNat)
        (fun hmem => (hhchars ':' hmem).1 rfl)]
    have h1 : (!uuid.data.isEmpty) = true := by simpa using hne
    have h2 : (!(natHexChars g.toNat).isEmpty) = true := by simpa using hhne
    simp [List.filter, h1, h2]
  have hparse : parseHexInt (natHexChars g.toNat) = some g := by
    obtain ⟨c, cs, hcl⟩ := List.exists_cons_of_ne_nil hhne
    have hspecial := hhchars c (by rw [hcl]; exact List.mem_cons_self c cs)
    rw [hcl, parseHexInt, if_neg hspecial.2.1, if_neg hspecial.2.2,
      ← hcl, hhparse]
    simp [Int.toNat_of_nonneg hg]
  simp only [hsplit, hparse]

/-- Witness for C9 (amended): uuid `"abc"`, generation 10, serialized as
`"abc:a"` and parsed back. -/
theorem peerIdentifier_roundtrip_witness :
    PeerIdentifier.stringValue ⟨"abc", 10⟩ =
      "abc" ++ ":" ++ String.mk (natHexChars (10 : Int).toNat) ∧
    PeerIdentifier.initStringValue (PeerIdentifier.stringValue ⟨"abc", 10⟩) =
      Except.ok ⟨"abc", 10⟩ ∧
    PeerIdentifier.nextGenerationPeer ⟨"abc", 10⟩ = ⟨"abc", 11⟩ :=
  peerIdentifier_roundtrip "abc" 10 (by decide) (by decide) (by decide)

end Thali
